import Mathlib

/-!
Shallow embedding of the CQF delivery-courier simulation core:
order lifecycle (State/OrderState.py, Entities/Order.py), inventory
(Management/Inventory.py over DataStructure/DoublyLinkedList.py), order
manager (Management/OrderManager.py over DataStructure/PriorityQueue.py),
player reputation model (Entities/Player.py), and the undo/snapshot
mechanism (Management/GameStateManager.py, State/GameSnapshot.py,
DataStructure/Stack.py).

Numeric conventions: Python floats are embedded as exact rationals (Rat),
timestamps as rational seconds, Python ints as Int.  Python objects are
aliased references; the authoritative `OrderManager.all_orders` dict is
embedded as an insertion-ordered list of `Order` values with unique ids,
and every mutation of an order object is written through that table.  The
inventory holds non-owning references, embedded as (id, weight) pairs
(weight is immutable after construction, state is read/written through
the table).
-/

namespace CQF

/-- State/OrderState.py: the six order lifecycle states. -/
inductive OrderState where
  | available
  | accepted
  | picked_up
  | delivered
  | expired
  | cancelled
deriving DecidableEq, Repr

/-- Terminal order states per the spec: DELIVERED, CANCELLED, EXPIRED. -/
def OrderState.isTerminal : OrderState → Bool
  | .delivered => true
  | .cancelled => true
  | .expired => true
  | _ => false

/-- State/PlayerState.py: derived player condition. -/
inductive PlayerState where
  | normal
  | tired
  | exhausted
deriving DecidableEq, Repr

/-- Entities/Order.py: an order record.  `deadline` and the two nullable
timestamps are rational seconds on the simulation/wall clock. -/
structure Order where
  id : String
  pickup : Int × Int
  dropoff : Int × Int
  payout : Int
  deadline : Rat
  weight : Rat
  priority : Int
  release_time : Rat
  state : OrderState
  pickup_time : Option Rat := none
  delivery_time : Option Rat := none
deriving DecidableEq, Repr

/-- Order.is_expired: past deadline and not DELIVERED/CANCELLED. -/
def Order.is_expired (o : Order) (current_time : Rat) : Bool :=
  decide (o.deadline < current_time) &&
    !(o.state = OrderState.delivered) && !(o.state = OrderState.cancelled)

/-- Dict lookup `all_orders[order_id]` (`None` when absent). -/
def lookupOrder (tbl : List Order) (oid : String) : Option Order :=
  tbl.find? (fun o => o.id == oid)

/-- Membership test `order_id in all_orders`. -/
def memOrder (tbl : List Order) (oid : String) : Bool :=
  tbl.any (fun o => o.id == oid)

/-- Write-through of `order.state = s` on the table entry with id `oid`. -/
def setOrderState (tbl : List Order) (oid : String) (s : OrderState) : List Order :=
  tbl.map (fun o => if o.id == oid then { o with state := s } else o)

/-! ## Inventory (Management/Inventory.py)

The doubly linked list `orders` and the hash table `orders_by_id` always
hold exactly the same orders (both are extended in `add_order`, shrunk in
`remove_order`, and rebuilt together on undo), so both are embedded as the
single list `held` of (id, weight) pairs in linked-list order. -/

structure Inventory where
  held : List (String × Rat)
  max_weight : Rat
  current_weight : Rat
deriving DecidableEq, Repr

/-- Inventory.can_add_order. -/
def Inventory.can_add_order (inv : Inventory) (w : Rat) : Bool :=
  decide (inv.current_weight + w ≤ inv.max_weight)

/-- Inventory.add_order.  At every call site of the repository the argument
is an order object of the manager's `all_orders` table (Game.py accept
flows and GameStateManager restore), so the argument is given by id and
dereferenced in the table; the `order.state = ACCEPTED` object mutation is
written through the table. -/
def Inventory.add_order (tbl : List Order) (inv : Inventory) (oid : String) :
    List Order × Inventory × Bool :=
  match lookupOrder tbl oid with
  | none => (tbl, inv, false)
  | some o =>
    if !(inv.can_add_order o.weight) then
      (tbl, inv, false)
    else if inv.held.any (fun p => p.1 == oid) then
      (tbl, inv, false)
    else
      let inv' : Inventory :=
        ⟨inv.held ++ [(oid, o.weight)], inv.max_weight, inv.current_weight + o.weight⟩
      let tbl' := if o.state = OrderState.accepted then tbl
                  else setOrderState tbl oid OrderState.accepted
      (tbl', inv', true)

/-- Inventory.remove_order: removes the first held occurrence and decrements
the weight by the removed order's weight; `false` embeds the `None` return. -/
def Inventory.remove_order (inv : Inventory) (oid : String) : Inventory × Bool :=
  match inv.held.find? (fun p => p.1 == oid) with
  | none => (inv, false)
  | some p =>
      (⟨inv.held.eraseP (fun q => q.1 == oid), inv.max_weight,
        inv.current_weight - p.2⟩, true)

/-! ## Player (Entities/Player.py) -/

structure Player where
  position : Int × Int
  stamina : Rat
  max_stamina : Rat
  base_speed : Rat
  current_speed : Rat
  inventory_weight : Rat
  max_inventory_weight : Rat
  pstate : PlayerState
  total_earnings : Int
  reputation : Int
  on_time_streak : Nat
  first_late_discount_used : Bool
deriving DecidableEq, Repr

/-- Player._update_state. -/
def Player.update_state (p : Player) : Player :=
  if p.stamina ≤ 0 then { p with pstate := PlayerState.exhausted }
  else if p.stamina ≤ 30 then { p with pstate := PlayerState.tired }
  else { p with pstate := PlayerState.normal }

/-- Player.can_move. -/
def Player.can_move (p : Player) : Bool :=
  decide (0 < p.stamina) || decide (p.pstate ≠ PlayerState.exhausted)

/-- Player.consume_stamina. -/
def Player.consume_stamina (p : Player)
    (base_consumption weight_penalty climate_penalty : Rat) : Player :=
  let total := base_consumption + weight_penalty + climate_penalty
  Player.update_state { p with stamina := max 0 (p.stamina - total) }

/-- Player.calculate_weight_penalty. -/
def Player.calculate_weight_penalty (p : Player) : Rat :=
  if 3 < p.inventory_weight then (1/5) * (p.inventory_weight - 3) else 0

/-- Player.get_stamina_multiplier. -/
def Player.get_stamina_multiplier (p : Player) : Rat :=
  match p.pstate with
  | PlayerState.exhausted => 0
  | PlayerState.tired => 4/5
  | PlayerState.normal => 1

/-- Player.move_to. -/
def Player.move_to (p : Player) (new_position : Int × Int)
    (climate_multiplier surface_weight reputation_multiplier
     stamina_extra_cost : Rat) : Player × Bool :=
  if !p.can_move then (p, false)
  else
    let weight_penalty := p.calculate_weight_penalty
    let p1 := p.consume_stamina (1/2) weight_penalty stamina_extra_cost
    let p2 := { p1 with position := new_position }
    let weight_multiplier := max (4/5) (1 - (3/100) * p2.inventory_weight)
    let stamina_multiplier := p2.get_stamina_multiplier
    ({ p2 with current_speed :=
        p2.base_speed * climate_multiplier * weight_multiplier *
          reputation_multiplier * stamina_multiplier * surface_weight }, true)

/-- Player.add_earnings. -/
def Player.add_earnings (p : Player) (amount : Int) : Player :=
  { p with total_earnings := p.total_earnings + amount }

/-- Player.apply_reputation_change: clamp to [0,100], return effective change. -/
def Player.apply_reputation_change (p : Player) (delta : Int) : Player × Int :=
  let newRep := max 0 (min 100 (p.reputation + delta))
  ({ p with reputation := newRep }, newRep - p.reputation)

/-- Player.get_pay_multiplier. -/
def Player.get_pay_multiplier (p : Player) : Rat :=
  if 90 ≤ p.reputation then 21/20 else 1

/-- Player.register_delivery_outcome.  `Int.tdiv penalty 2` embeds Python's
`int(penalty / 2)` (true division then truncation toward zero; the halves
arising here are exact in binary floating point). -/
def Player.register_delivery_outcome (p : Player) (delay_seconds : Rat)
    (early : Bool) : Player × Int :=
  let (p1, delta) :=
    if early then
      ({ p with on_time_streak := p.on_time_streak + 1 }, (5 : Int))
    else if delay_seconds ≤ 0 then
      ({ p with on_time_streak := p.on_time_streak + 1 }, (3 : Int))
    else
      let penalty : Int :=
        if delay_seconds ≤ 30 then -2
        else if delay_seconds ≤ 120 then -5
        else -10
      let (penalty2, used) :=
        if 85 ≤ p.reputation ∧ p.first_late_discount_used = false then
          (Int.tdiv penalty 2, true)
        else (penalty, p.first_late_discount_used)
      ({ p with on_time_streak := 0, first_late_discount_used := used }, penalty2)
  let (p2, delta2) :=
    if p1.on_time_streak ≠ 0 ∧ p1.on_time_streak % 3 = 0 then
      let r := p1.apply_reputation_change 2
      (r.1, delta + r.2)
    else (p1, delta)
  let p3 := (p2.apply_reputation_change delta2).1
  (p3, delta2)

/-! ## Priority queue (DataStructure/PriorityQueue.py)

The heap holds tuples `(-priority, index, item)` with a monotonically
increasing `index` per queue.  Python's `heapq` is a library binary heap;
it is embedded by its documented contract: the heap is a collection of
entries and `heappop` removes the least entry in lexicographic tuple
order.  Indices in one queue are pairwise distinct, so tuple comparison
never reaches the item and extraction order is fully determined. -/

/-- Lexicographic order on the `(heap_priority, index)` prefix of an entry. -/
def entryLE {α : Type} (e f : Int × Nat × α) : Prop :=
  e.1 < f.1 ∨ (e.1 = f.1 ∧ e.2.1 ≤ f.2.1)

instance {α : Type} (e f : Int × Nat × α) : Decidable (entryLE e f) := by
  unfold entryLE; infer_instance

structure PriorityQueue (α : Type) where
  heap : List (Int × Nat × α)
  index : Nat
deriving DecidableEq, Repr

/-- PriorityQueue.__init__. -/
def PriorityQueue.empty {α : Type} : PriorityQueue α := ⟨[], 0⟩

/-- PriorityQueue.push: insert `(-priority, index, item)`, bump the counter. -/
def PriorityQueue.push {α : Type} (q : PriorityQueue α) (item : α)
    (priority : Int) : PriorityQueue α :=
  ⟨q.heap ++ [(-priority, q.index, item)], q.index + 1⟩

/-- The least entry of a nonempty heap (left fold, as a selection). -/
def minEntry {α : Type} : List (Int × Nat × α) → Option (Int × Nat × α)
  | [] => none
  | e :: es => some (es.foldl (fun m f => if entryLE f m then f else m) e)

/-- PriorityQueue.is_empty. -/
def PriorityQueue.is_empty {α : Type} (q : PriorityQueue α) : Bool :=
  q.heap.length == 0

/-- Removal of the first occurrence of an entry (the element `heappop`
extracts from the heap collection). -/
def eraseEntry {α : Type} [DecidableEq α] :
    List (Int × Nat × α) → (Int × Nat × α) → List (Int × Nat × α)
  | [], _ => []
  | x :: xs, m => if x = m then xs else x :: eraseEntry xs m

/-- PriorityQueue.pop: raises IndexError on an empty queue, else removes and
returns the least entry's item. -/
def PriorityQueue.pop {α : Type} [DecidableEq α] (q : PriorityQueue α) :
    Except String (α × PriorityQueue α) :=
  match minEntry q.heap with
  | none => Except.error "pop from empty priority queue"
  | some e => Except.ok (e.2.2, ⟨eraseEntry q.heap e, q.index⟩)

/-- PriorityQueue.peek: `None` on an empty queue, least entry's item else. -/
def PriorityQueue.peek {α : Type} (q : PriorityQueue α) : Option α :=
  (minEntry q.heap).map (fun e => e.2.2)

/-- PriorityQueue.to_list: pop a copy of the heap to exhaustion.  Shared with
`pop`: each step extracts the least remaining entry. -/
def popAllEntries {α : Type} [DecidableEq α] :
    List (Int × Nat × α) → List (Int × Nat × α)
  | [] => []
  | e :: es =>
    match h : minEntry (e :: es) with
    | none => []
    | some m => m :: popAllEntries (eraseEntry (e :: es) m)
termination_by l => l.length
decreasing_by
  simp only [minEntry, Option.some.injEq] at h
  have hm : m ∈ e :: es := by
    rw [← h]
    clear h
    induction es generalizing e with
    | nil => simp
    | cons f fs ih =>
      simp only [List.foldl]
      rcases List.mem_cons.mp (ih (if entryLE f e then f else e)) with h1 | h1
      · rw [h1]
        by_cases hc : entryLE f e
        · simp [hc]
        · simp [hc]
      · exact List.mem_cons_of_mem _ (List.mem_cons_of_mem _ h1)
  have hlen : ∀ (l : List (Int × Nat × α)), m ∈ l →
      (eraseEntry l m).length < l.length := by
    intro l hml
    induction l with
    | nil => simp at hml
    | cons x xs ih =>
      by_cases hx : x = m
      · simp [eraseEntry, hx]
      · rcases List.mem_cons.mp hml with h1 | h1
        · exact absurd h1.symm hx
        · simp only [eraseEntry, if_neg hx, List.length_cons]
          exact Nat.succ_lt_succ (ih h1)
  exact hlen _ hm

/-- PriorityQueue.to_list as item list. -/
def PriorityQueue.to_list {α : Type} [DecidableEq α] (q : PriorityQueue α) :
    List α :=
  (popAllEntries q.heap).map (fun e => e.2.2)

/-- PriorityQueue.remove_by_id (for queues of order ids): filter out entries
carrying the id; re-heapify preserves the entry collection. -/
def PriorityQueue.remove_by_id (q : PriorityQueue String) (item_id : String) :
    PriorityQueue String :=
  ⟨q.heap.filter (fun e => !(e.2.2 == item_id)), q.index⟩

/-! ## Order manager (Management/OrderManager.py) -/

structure OrderManager where
  all_orders : List Order
  available_orders : PriorityQueue String
  expired_orders : List String
  completed_orders : List String
deriving DecidableEq, Repr

/-- OrderManager.accept_order: refuse when the id is unknown, when any order
in the system is ACCEPTED or PICKED_UP, or when the order is not AVAILABLE;
otherwise remove it from the queue and return it with its state untouched. -/
def OrderManager.accept_order (om : OrderManager) (oid : String) :
    OrderManager × Option String :=
  if !(memOrder om.all_orders oid) then (om, none)
  else if om.all_orders.any
      (fun o => o.state = OrderState.accepted ∨ o.state = OrderState.picked_up) then
    (om, none)
  else
    match lookupOrder om.all_orders oid with
    | none => (om, none)
    | some o =>
      if o.state = OrderState.available then
        ({ om with available_orders := om.available_orders.remove_by_id oid },
         some oid)
      else (om, none)

/-- OrderManager.pickup_order: ACCEPTED → PICKED_UP, stamping pickup_time. -/
def OrderManager.pickup_order (om : OrderManager) (oid : String) (now : Rat) :
    OrderManager × Bool :=
  match lookupOrder om.all_orders oid with
  | none => (om, false)
  | some o =>
    if o.state = OrderState.accepted then
      ({ om with all_orders := om.all_orders.map (fun q =>
          if q.id == oid then
            { q with state := OrderState.picked_up, pickup_time := some now }
          else q) }, true)
    else (om, false)

/-- OrderManager.deliver_order: PICKED_UP or ACCEPTED → DELIVERED, stamping
delivery_time and appending to the completed list. -/
def OrderManager.deliver_order (om : OrderManager) (oid : String) (now : Rat) :
    OrderManager × Option String :=
  match lookupOrder om.all_orders oid with
  | none => (om, none)
  | some o =>
    if o.state = OrderState.picked_up ∨ o.state = OrderState.accepted then
      ({ om with
          all_orders := om.all_orders.map (fun q =>
            if q.id == oid then
              { q with state := OrderState.delivered, delivery_time := some now }
            else q),
          completed_orders := om.completed_orders ++ [oid] }, some oid)
    else (om, none)

/-- OrderManager.cancel_order: ACCEPTED or PICKED_UP → CANCELLED. -/
def OrderManager.cancel_order (om : OrderManager) (oid : String) :
    OrderManager × Bool :=
  match lookupOrder om.all_orders oid with
  | none => (om, false)
  | some o =>
    if o.state = OrderState.accepted ∨ o.state = OrderState.picked_up then
      ({ om with all_orders := setOrderState om.all_orders oid OrderState.cancelled },
       true)
    else (om, false)

/-- The per-order condition of OrderManager.update_expired_orders:
`o.is_expired(now)` and state not DELIVERED/CANCELLED/EXPIRED. -/
def expiresNow (o : Order) (now : Rat) : Bool :=
  o.is_expired now && !(o.state = OrderState.delivered) &&
    !(o.state = OrderState.cancelled) && !(o.state = OrderState.expired)

/-- OrderManager.update_expired_orders: transition every matching order to
EXPIRED and return the just-expired batch. -/
def OrderManager.update_expired_orders (om : OrderManager) (now : Rat) :
    OrderManager × List String :=
  let just := (om.all_orders.filter (fun o => expiresNow o now)).map (fun o => o.id)
  ({ om with
      all_orders := om.all_orders.map (fun o =>
        if expiresNow o now then { o with state := OrderState.expired } else o),
      expired_orders := om.expired_orders ++ just }, just)

/-! ## Snapshots and undo (State/GameSnapshot.py, DataStructure/Stack.py,
Management/GameStateManager.py) and the Game flows of Game.py that the
claims quantify over. -/

/-- State/GameSnapshot.py. -/
structure GameSnapshot where
  player_position : Int × Int
  player_stamina : Rat
  player_inventory_weight : Rat
  player_total_earnings : Int
  current_time : Rat
  order_states : List (String × OrderState)
  inventory_order_ids : List String
  timestamp : Rat
deriving DecidableEq, Repr

/-- Management/GameStateManager.py: history is the Stack's item list,
oldest first, top of stack last. -/
structure GameStateManager where
  history : List GameSnapshot
  max_history : Nat
deriving DecidableEq, Repr

/-- The aggregate session object of Game.py that the manager operations
read and mutate. -/
structure Game where
  player : Player
  order_manager : OrderManager
  inventory : Inventory
  current_time : Rat
  state_manager : GameStateManager
deriving DecidableEq, Repr

/-- GameStateManager.save_state applied to the game instance: capture a
snapshot of player fields, simulation time, every order's state and the
inventory id list, and push it on the bounded stack (Stack.push drops the
oldest item past max_size).  `ts` is the wall-clock `time.time()` value. -/
def Game.save_state (g : Game) (ts : Rat) : Game :=
  let snap : GameSnapshot :=
    { player_position := g.player.position
      player_stamina := g.player.stamina
      player_inventory_weight := g.player.inventory_weight
      player_total_earnings := g.player.total_earnings
      current_time := g.current_time
      order_states := g.order_manager.all_orders.map (fun o => (o.id, o.state))
      inventory_order_ids := g.inventory.held.map (fun p => p.1)
      timestamp := ts }
  let items := g.state_manager.history ++ [snap]
  { g with state_manager :=
      { g.state_manager with history :=
          if g.state_manager.max_history < items.length then items.drop 1
          else items } }

/-- GameStateManager.undo_last_action applied to the game instance: pop the
top snapshot (false when the stack is empty), restore player position,
stamina, inventory weight and earnings and the simulation time, restore
every snapshotted order's state by id (ids gone from the table are
skipped), then clear the inventory and re-add the snapshot's inventory ids
through Inventory.add_order. -/
def Game.undo_last_action (g : Game) : Game × Bool :=
  match g.state_manager.history.getLast? with
  | none => (g, false)
  | some snap =>
    let mgr := { g.state_manager with history := g.state_manager.history.dropLast }
    let player1 := { g.player with
      position := snap.player_position
      stamina := snap.player_stamina
      inventory_weight := snap.player_inventory_weight
      total_earnings := snap.player_total_earnings }
    let tbl1 := snap.order_states.foldl
      (fun tbl p => if memOrder tbl p.1 then setOrderState tbl p.1 p.2 else tbl)
      g.order_manager.all_orders
    let cleared : Inventory := ⟨[], g.inventory.max_weight, 0⟩
    let restored := snap.inventory_order_ids.foldl
      (fun (acc : List Order × Inventory) oid =>
        let r := Inventory.add_order acc.1 acc.2 oid
        (r.1, r.2.1))
      (tbl1, cleared)
    ({ g with
        player := player1
        current_time := snap.current_time
        order_manager := { g.order_manager with all_orders := restored.1 }
        inventory := restored.2
        state_manager := mgr }, true)

/-- Python's round(): round half to even (delivery payouts are
nonnegative smallish currency amounts, for which the float round is the
ideal one). -/
def pyRound (x : Rat) : Int :=
  let n := ⌊x⌋
  let frac := x - (n : Rat)
  if frac < 1/2 then n
  else if 1/2 < frac then n + 1
  else if n % 2 = 0 then n else n + 1

/-- Game._deliver_current_order on the order with id `oid` (the inventory
navigation cursor is resolved to the id): deliver through the manager,
register the reputation outcome (delay and earliness computed from the
stamped delivery time against the deadline, with the fixed 3600 s
allotment of Order.is_early_delivery), pay `int(round(payout * pay_mult))`
into earnings, remove the order from the inventory and sync the player's
inventory weight. -/
def Game.deliver_flow (g : Game) (oid : String) (now : Rat) : Game :=
  let r := g.order_manager.deliver_order oid now
  match r.2 with
  | none => { g with order_manager := r.1 }
  | some _ =>
    match lookupOrder g.order_manager.all_orders oid with
    | none => { g with order_manager := r.1 }
    | some o =>
      let delay_seconds := now - o.deadline
      let early := decide ((3600 : Rat) * (1/5) ≤ o.deadline - now)
      let pr := g.player.register_delivery_outcome delay_seconds early
      let pay_mult := pr.1.get_pay_multiplier
      let payout := pyRound ((o.payout : Rat) * pay_mult)
      let p2 := pr.1.add_earnings payout
      let ir := g.inventory.remove_order oid
      let p3 := { p2 with inventory_weight := ir.1.current_weight }
      { g with order_manager := r.1, player := p3, inventory := ir.1 }

/-- Game._cancel_current_order on the order with id `oid`: cancel through
the manager and, on success, remove from the inventory, sync the player's
inventory weight and apply the fixed -4 reputation penalty (no earnings
change). -/
def Game.cancel_flow (g : Game) (oid : String) : Game :=
  let r := g.order_manager.cancel_order oid
  if r.2 then
    let ir := g.inventory.remove_order oid
    let p1 := { g.player with inventory_weight := ir.1.current_weight }
    let p2 := (p1.apply_reputation_change (-4)).1
    { g with order_manager := r.1, inventory := ir.1, player := p2 }
  else { g with order_manager := r.1 }

/-- The mutating operations of the system that the sequence-quantified
claims range over. -/
inductive GOp where
  | inv_add (oid : String)
  | inv_remove (oid : String)
  | accept (oid : String)
  | pickup (oid : String) (now : Rat)
  | deliver (oid : String) (now : Rat)
  | cancel (oid : String)
  | update_expired (now : Rat)
  | move (new_position : Int × Int)
      (climate surface rep_mult extra_cost : Rat)
  | save (ts : Rat)
  | undo
deriving DecidableEq, Repr

/-- Apply one operation to the session state. -/
def GOp.apply (op : GOp) (g : Game) : Game :=
  match op with
  | .inv_add oid =>
      let r := Inventory.add_order g.order_manager.all_orders g.inventory oid
      { g with order_manager := { g.order_manager with all_orders := r.1 },
               inventory := r.2.1 }
  | .inv_remove oid => { g with inventory := (g.inventory.remove_order oid).1 }
  | .accept oid => { g with order_manager := (g.order_manager.accept_order oid).1 }
  | .pickup oid now =>
      { g with order_manager := (g.order_manager.pickup_order oid now).1 }
  | .deliver oid now => g.deliver_flow oid now
  | .cancel oid => g.cancel_flow oid
  | .update_expired now =>
      { g with order_manager := (g.order_manager.update_expired_orders now).1 }
  | .move pos climate surface rep_mult extra_cost =>
      { g with player := (g.player.move_to pos climate surface rep_mult extra_cost).1 }
  | .save ts => g.save_state ts
  | .undo => g.undo_last_action.1

/-- Apply a sequence of operations, first operation first. -/
def runOps (ops : List GOp) (g : Game) : Game :=
  ops.foldl (fun s op => op.apply s) g

/-! ## Sequence runners and observation helpers for the claims -/

/-- Push a whole sequence of (item, priority) calls into a queue. -/
def pushSeq {α : Type} (ps : List (α × Int)) (q : PriorityQueue α) :
    PriorityQueue α :=
  ps.foldl (fun q p => q.push p.1 p.2) q

/-- The heap entries a push sequence produces, starting at counter `i`. -/
def entriesFrom {α : Type} (i : Nat) : List (α × Int) → List (Int × Nat × α)
  | [] => []
  | p :: ps => (-p.2, i, p.1) :: entriesFrom (i + 1) ps

/-- The item sequence obtained by popping a queue to exhaustion; it is
shown below to satisfy the recurrence of repeated PriorityQueue.pop. -/
def popList {α : Type} [DecidableEq α] (q : PriorityQueue α) : List α :=
  (popAllEntries q.heap).map (fun e => e.2.2)

/-- Number of orders in the table in the ACCEPTED or PICKED_UP state. -/
def activeCount (tbl : List Order) : Nat :=
  (tbl.filter
    (fun o => o.state = OrderState.accepted ∨ o.state = OrderState.picked_up)).length

/-- An inventory add/remove call, for the inventory-only sequences of the
weight-invariant claim. -/
inductive InvAct where
  | add (oid : String)
  | remove (oid : String)
deriving DecidableEq, Repr

/-- Run a sequence of Inventory.add_order / Inventory.remove_order calls,
threading the shared order table through the state writes of add_order. -/
def runInv : List InvAct → List Order → Inventory → List Order × Inventory
  | [], tbl, inv => (tbl, inv)
  | InvAct.add oid :: acts, tbl, inv =>
      let r := Inventory.add_order tbl inv oid
      runInv acts r.1 r.2.1
  | InvAct.remove oid :: acts, tbl, inv =>
      runInv acts tbl (inv.remove_order oid).1

/-- The weight invariant of the spec: current_weight is the exact sum of the
held orders' weights and never exceeds max_weight. -/
def Inventory.weightInvariant (inv : Inventory) : Prop :=
  inv.current_weight = (inv.held.map (fun p => p.2)).sum ∧
    inv.current_weight ≤ inv.max_weight

/-! ## Concrete example states used by witnesses and counterexamples -/

/-- A player in the initial Player.__init__ configuration (reputation 70),
with an on-time streak of 2 already registered. -/
def exPlayer : Player :=
  { position := (0, 0)
    stamina := 100
    max_stamina := 100
    base_speed := 3
    current_speed := 3
    inventory_weight := 0
    max_inventory_weight := 10
    pstate := PlayerState.normal
    total_earnings := 0
    reputation := 70
    on_time_streak := 2
    first_late_discount_used := false }

/-- An available order of weight 1 and payout 100, deadline 1000 s. -/
def exOrdA : Order :=
  { id := "A"
    pickup := (0, 0)
    dropoff := (1, 1)
    payout := 100
    deadline := 1000
    weight := 1
    priority := 0
    release_time := 0
    state := OrderState.available }

/-- A second available order. -/
def exOrdB : Order := { exOrdA with id := "B" }

/-- A freshly loaded session: two AVAILABLE orders, empty inventory. -/
def exG0 : Game :=
  { player := exPlayer
    order_manager := ⟨[exOrdA, exOrdB], PriorityQueue.empty, [], []⟩
    inventory := ⟨[], 10, 0⟩
    current_time := 0
    state_manager := ⟨[], 20⟩ }

/-- A session whose order A is PICKED_UP and held in the inventory (the
state Game.py is in between pickup and delivery). -/
def exGPicked : Game :=
  { exG0 with
    order_manager :=
      ⟨[{ exOrdA with state := OrderState.picked_up }, exOrdB],
       PriorityQueue.empty, [], []⟩
    inventory := ⟨[("A", 1)], 10, 1⟩
    player := { exPlayer with inventory_weight := 1 } }

/-- A session whose order A is ACCEPTED and held in the inventory. -/
def exGAccepted : Game :=
  { exG0 with
    order_manager :=
      ⟨[{ exOrdA with state := OrderState.accepted }],
       PriorityQueue.empty, [], []⟩
    inventory := ⟨[("A", 1)], 10, 1⟩
    player := { exPlayer with inventory_weight := 1 } }

/-- A session whose only order is already DELIVERED (a terminal state). -/
def exGDelivered : Game :=
  { exG0 with
    order_manager :=
      ⟨[{ exOrdA with state := OrderState.delivered }],
       PriorityQueue.empty, [], []⟩ }

/-! ## Lemmas: priority queue extraction order -/

lemma entryLE_refl {α : Type} (e : Int × Nat × α) : entryLE e e := by
  simp [entryLE]

lemma entryLE_total {α : Type} {e f : Int × Nat × α} (h : ¬ entryLE e f) :
    entryLE f e := by
  unfold entryLE at *
  omega

lemma entryLE_trans {α : Type} {e f g : Int × Nat × α}
    (h1 : entryLE e f) (h2 : entryLE f g) : entryLE e g := by
  unfold entryLE at *
  omega

lemma foldlMin_mem {α : Type} (es : List (Int × Nat × α)) (e : Int × Nat × α) :
    es.foldl (fun m f => if entryLE f m then f else m) e ∈ e :: es := by
  induction es generalizing e with
  | nil => simp
  | cons f fs ih =>
    simp only [List.foldl]
    rcases List.mem_cons.mp (ih (if entryLE f e then f else e)) with h1 | h1
    · rw [h1]
      by_cases hc : entryLE f e
      · simp [hc]
      · simp [hc]
    · exact List.mem_cons_of_mem _ (List.mem_cons_of_mem _ h1)

lemma foldlMin_le {α : Type} (es : List (Int × Nat × α)) (e : Int × Nat × α) :
    ∀ x ∈ e :: es, entryLE (es.foldl (fun m f => if entryLE f m then f else m) e) x := by
  induction es generalizing e with
  | nil =>
    intro x hx
    rcases List.mem_singleton.mp hx with rfl
    exact entryLE_refl _
  | cons f fs ih =>
    intro x hx
    simp only [List.foldl]
    have hacc : entryLE (if entryLE f e then f else e) e ∧
        entryLE (if entryLE f e then f else e) f := by
      by_cases hc : entryLE f e
      · rw [if_pos hc]
        exact ⟨hc, entryLE_refl _⟩
      · rw [if_neg hc]
        exact ⟨entryLE_refl _, entryLE_total hc⟩
    have hres := ih (if entryLE f e then f else e)
    rcases List.mem_cons.mp hx with rfl | hx2
    · exact entryLE_trans (hres _ (List.mem_cons_self _ _)) hacc.1
    rcases List.mem_cons.mp hx2 with rfl | hx3
    · exact entryLE_trans (hres _ (List.mem_cons_self _ _)) hacc.2
    · exact hres _ (List.mem_cons_of_mem _ hx3)

lemma minEntry_mem {α : Type} {l : List (Int × Nat × α)} {m : Int × Nat × α}
    (h : minEntry l = some m) : m ∈ l := by
  cases l with
  | nil => simp [minEntry] at h
  | cons e es =>
    simp only [minEntry, Option.some.injEq] at h
    exact h ▸ foldlMin_mem es e

lemma minEntry_le {α : Type} {l : List (Int × Nat × α)} {m : Int × Nat × α}
    (h : minEntry l = some m) : ∀ x ∈ l, entryLE m x := by
  cases l with
  | nil => simp [minEntry] at h
  | cons e es =>
    simp only [minEntry, Option.some.injEq] at h
    exact h ▸ foldlMin_le es e

lemma perm_cons_eraseEntry {α : Type} [DecidableEq α]
    {l : List (Int × Nat × α)} {m : Int × Nat × α} (h : m ∈ l) :
    l.Perm (m :: eraseEntry l m) := by
  induction l with
  | nil => simp at h
  | cons x xs ih =>
    by_cases hx : x = m
    · rw [hx]
      simp [eraseEntry]
    · rcases List.mem_cons.mp h with h1 | h1
      · exact absurd h1.symm hx
      · rw [eraseEntry, if_neg hx]
        exact ((ih h1).cons x).trans (List.Perm.swap m x _)

lemma mem_of_mem_eraseEntry {α : Type} [DecidableEq α]
    {l : List (Int × Nat × α)} {m x : Int × Nat × α}
    (h : x ∈ eraseEntry l m) : x ∈ l := by
  induction l with
  | nil => simp [eraseEntry] at h
  | cons y ys ih =>
    by_cases hy : y = m
    · rw [eraseEntry, if_pos hy] at h
      exact List.mem_cons_of_mem _ h
    · rw [eraseEntry, if_neg hy] at h
      rcases List.mem_cons.mp h with h1 | h1
      · exact h1 ▸ List.mem_cons_self _ _
      · exact List.mem_cons_of_mem _ (ih h1)

lemma popAllEntries_perm {α : Type} [DecidableEq α]
    (l : List (Int × Nat × α)) : (popAllEntries l).Perm l := by
  induction l using popAllEntries.induct with
  | case1 => simp [popAllEntries]
  | case2 e es h => simp [minEntry] at h
  | case3 e es m h ih =>
    rw [popAllEntries, h]
    exact (ih.cons m).trans (perm_cons_eraseEntry (minEntry_mem h)).symm

lemma popAllEntries_sorted {α : Type} [DecidableEq α]
    (l : List (Int × Nat × α)) : (popAllEntries l).Pairwise entryLE := by
  induction l using popAllEntries.induct with
  | case1 => simp [popAllEntries]
  | case2 e es h => simp [minEntry] at h
  | case3 e es m h ih =>
    rw [popAllEntries, h]
    refine List.Pairwise.cons ?_ ih
    intro x hx
    have hx2 : x ∈ eraseEntry (e :: es) m :=
      (popAllEntries_perm _).mem_iff.mp hx
    exact minEntry_le h x (mem_of_mem_eraseEntry hx2)

lemma pushSeq_heap {α : Type} (ps : List (α × Int)) (q : PriorityQueue α) :
    (pushSeq ps q).heap = q.heap ++ entriesFrom q.index ps := by
  induction ps generalizing q with
  | nil => simp [pushSeq, entriesFrom]
  | cons p ps ih =>
    have : pushSeq (p :: ps) q = pushSeq ps (q.push p.1 p.2) := by
      simp [pushSeq]
    rw [this, ih]
    simp [PriorityQueue.push, entriesFrom]

lemma minEntry_none_iff {α : Type} {l : List (Int × Nat × α)} :
    minEntry l = none ↔ l = [] := by
  cases l <;> simp [minEntry]

/-- Claim C6: for every sequence of push(item, priority) calls, repeated
pop() returns the pushed entries in non-increasing priority order (the heap
key is the negated priority) and in FIFO push order among equal priorities;
pop() on an empty queue fails with the empty-queue IndexError while peek()
on an empty queue returns none.  The first conjunct is the recurrence of
repeated pop; the next two state that the extraction sequence is a
permutation of the pushed entries, sorted as claimed. -/
theorem c6_priority_queue_pop_order {α : Type} [DecidableEq α]
    (ps : List (α × Int)) :
    (∀ (q : PriorityQueue α) (x : α) (q2 : PriorityQueue α),
        q.pop = Except.ok (x, q2) → popList q = x :: popList q2) ∧
    (popAllEntries (pushSeq ps PriorityQueue.empty).heap).Perm
      (entriesFrom 0 ps) ∧
    (popAllEntries (pushSeq ps PriorityQueue.empty).heap).Pairwise
      (fun e f => -f.1 ≤ -e.1 ∧ (e.1 = f.1 → e.2.1 ≤ f.2.1)) ∧
    (PriorityQueue.empty (α := α)).pop =
      Except.error "pop from empty priority queue" ∧
    (PriorityQueue.empty (α := α)).peek = none := by
  refine ⟨?_, ?_, ?_, ?_, ?_⟩
  · intro q x q2 h
    unfold PriorityQueue.pop at h
    cases hm : minEntry q.heap with
    | none => rw [hm] at h; exact absurd h (by simp)
    | some m =>
      rw [hm] at h
      simp only [Except.ok.injEq, Prod.mk.injEq] at h
      obtain ⟨hx, hq2⟩ := h
      cases hl : q.heap with
      | nil => rw [hl] at hm; simp [minEntry] at hm
      | cons e es =>
        rw [hl] at hm
        subst hx
        have hq2h : q2.heap = eraseEntry (e :: es) m := by rw [← hq2, hl]
        unfold popList
        rw [hl, popAllEntries, hm, hq2h]
        rfl
  · rw [pushSeq_heap]
    simpa [PriorityQueue.empty] using popAllEntries_perm (entriesFrom 0 ps)
  · refine (popAllEntries_sorted _).imp ?_
    intro e f h
    unfold entryLE at h
    exact ⟨by omega, fun heq => by omega⟩
  · rfl
  · rfl

/-- Witness for C6: one concrete pop step through the theorem's recurrence
conjunct, on the queue produced by pushing a@1, b@3, c@1. -/
theorem c6_priority_queue_pop_order_witness :
    popList (⟨[(-1, 0, "a"), (-3, 1, "b"), (-1, 2, "c")], 3⟩ :
        PriorityQueue String) =
      "b" :: popList (⟨[(-1, 0, "a"), (-1, 2, "c")], 3⟩ : PriorityQueue String) :=
  (c6_priority_queue_pop_order (α := String) []).1 _ _ _ rfl

/-! ## Lemmas: inventory weight bookkeeping -/

lemma held_sum_eraseP (l : List (String × Rat)) (oid : String)
    (p : String × Rat) (h : l.find? (fun q => q.1 == oid) = some p) :
    ((l.eraseP (fun q => q.1 == oid)).map (fun q => q.2)).sum
      = (l.map (fun q => q.2)).sum - p.2 := by
  induction l with
  | nil => simp at h
  | cons x xs ih =>
    by_cases hx : (x.1 == oid) = true
    · simp only [List.find?_cons, hx, Option.some.injEq] at h
      cases h
      simp only [List.eraseP_cons, hx, cond_true, List.map_cons, List.sum_cons]
      ring
    · simp only [List.find?_cons, Bool.eq_false_iff.mpr hx] at h
      simp only [List.eraseP_cons, Bool.eq_false_iff.mpr hx, cond_false,
        List.map_cons, List.sum_cons, ih h]
      ring

lemma setOrderState_weight_pos {tbl : List Order} {oid : String}
    {s : OrderState} (h : ∀ o ∈ tbl, 0 < o.weight) :
    ∀ o ∈ setOrderState tbl oid s, 0 < o.weight := by
  intro o ho
  rcases List.mem_map.mp ho with ⟨o2, ho2, hmap⟩
  by_cases hid : o2.id == oid
  · rw [← hmap]
    simpa [hid] using h o2 ho2
  · rw [← hmap]
    simpa [hid] using h o2 ho2

lemma runInv_invariant (acts : List InvAct) (tbl : List Order)
    (inv : Inventory)
    (hsum : inv.current_weight = (inv.held.map (fun p => p.2)).sum)
    (hle : inv.current_weight ≤ inv.max_weight)
    (hheld : ∀ p ∈ inv.held, 0 < p.2)
    (htbl : ∀ o ∈ tbl, 0 < o.weight) :
    (runInv acts tbl inv).2.max_weight = inv.max_weight ∧
    (runInv acts tbl inv).2.weightInvariant := by
  induction acts generalizing tbl inv with
  | nil => exact ⟨rfl, hsum, hle⟩
  | cons a acts ih =>
    cases a with
    | add oid =>
      rw [runInv]
      cases hfind : lookupOrder tbl oid with
      | none =>
        simp only [Inventory.add_order, hfind]
        exact ih tbl inv hsum hle hheld htbl
      | some o =>
        have homem : o ∈ tbl := List.mem_of_find?_eq_some hfind
        by_cases hcap : inv.can_add_order o.weight
        · by_cases hdup : inv.held.any (fun p => p.1 == oid)
          · simp only [Inventory.add_order, hfind, hcap, hdup, Bool.not_true,
              Bool.false_eq_true, if_false, if_true]
            exact ih tbl inv hsum hle hheld htbl
          · have hcap2 : inv.current_weight + o.weight ≤ inv.max_weight := by
              simpa [Inventory.can_add_order] using hcap
            simp only [Inventory.add_order, hfind, hcap, hdup, Bool.not_true,
              Bool.false_eq_true, if_false, if_true]
            refine ih _ _ ?_ ?_ ?_ ?_
            · simp [hsum]
            · simpa using hcap2
            · intro p hp
              rcases List.mem_append.mp hp with hp1 | hp1
              · exact hheld p hp1
              · rcases List.mem_singleton.mp hp1 with rfl
                exact htbl o homem
            · by_cases hst : o.state = OrderState.accepted
              · simpa [hst] using htbl
              · simpa [hst] using setOrderState_weight_pos htbl
        · simp only [Inventory.add_order, hfind, hcap, Bool.not_false,
            Bool.false_eq_true, if_true]
          exact ih tbl inv hsum hle hheld htbl
    | remove oid =>
      rw [runInv]
      cases hfind : inv.held.find? (fun q => q.1 == oid) with
      | none =>
        simp only [Inventory.remove_order, hfind]
        exact ih tbl inv hsum hle hheld htbl
      | some p =>
        have hpmem : p ∈ inv.held := List.mem_of_find?_eq_some hfind
        have hppos : 0 < p.2 := hheld p hpmem
        simp only [Inventory.remove_order, hfind]
        refine ih _ _ ?_ ?_ ?_ htbl
        · simp only
          rw [held_sum_eraseP inv.held oid p hfind, hsum]
        · simp only
          linarith
        · intro q hq
          exact hheld q (List.eraseP_subset _ hq)

/-- Claim C5: for every initial inventory (freshly constructed with a
nonnegative capacity, holding orders of positive weight as the spec's data
model requires) and every sequence of add_order/remove_order calls,
current_weight equals the exact sum of the held orders' weights and never
exceeds max_weight; moreover add_order refuses an order that would exceed
the capacity and refuses a duplicate id. -/
theorem c5_inventory_weight_invariant
    (acts : List InvAct) (tbl : List Order) (mw : Rat)
    (hmw : 0 ≤ mw) (htbl : ∀ o ∈ tbl, 0 < o.weight) :
    (runInv acts tbl ⟨[], mw, 0⟩).2.weightInvariant ∧
    (∀ (tbl2 : List Order) (inv : Inventory) (oid : String) (o : Order),
        lookupOrder tbl2 oid = some o →
        inv.max_weight < inv.current_weight + o.weight →
        (Inventory.add_order tbl2 inv oid).2.2 = false) ∧
    (∀ (tbl2 : List Order) (inv : Inventory) (oid : String),
        inv.held.any (fun p => p.1 == oid) = true →
        (Inventory.add_order tbl2 inv oid).2.2 = false) := by
  refine ⟨?_, ?_, ?_⟩
  · exact (runInv_invariant acts tbl ⟨[], mw, 0⟩ (by simp) (by simpa using hmw)
      (by simp) htbl).2
  · intro tbl2 inv oid o hfind hover
    have hcap : inv.can_add_order o.weight = false := by
      simp [Inventory.can_add_order, not_le.mpr hover]
    simp [Inventory.add_order, hfind, hcap]
  · intro tbl2 inv oid hdup
    cases hfind : lookupOrder tbl2 oid with
    | none => simp [Inventory.add_order, hfind]
    | some o =>
      by_cases hcap : inv.can_add_order o.weight
      · simp [Inventory.add_order, hfind, hcap, hdup]
      · simp [Inventory.add_order, hfind, hcap]

/-- Witness for C5: the invariant after [add A, remove A, add B] on the
two-order table, plus both refusal conjuncts at a concrete call. -/
theorem c5_inventory_weight_invariant_witness :
    (runInv [InvAct.add "A", InvAct.remove "A", InvAct.add "B"]
        [exOrdA, exOrdB] ⟨[], 10, 0⟩).2.weightInvariant ∧
    (Inventory.add_order [exOrdA] ⟨[("Z", 2)], 10, 10⟩ "A").2.2 = false ∧
    (Inventory.add_order [exOrdA] ⟨[("A", 1)], 10, 1⟩ "A").2.2 = false := by
  have h := c5_inventory_weight_invariant
    [InvAct.add "A", InvAct.remove "A", InvAct.add "B"] [exOrdA, exOrdB] 10
    (by norm_num) (by intro o ho; fin_cases ho <;> norm_num [exOrdA, exOrdB])
  refine ⟨h.1, ?_, ?_⟩
  · exact h.2.1 [exOrdA] ⟨[("Z", 2)], 10, 10⟩ "A" exOrdA (by rfl)
      (by norm_num [exOrdA])
  · exact h.2.2 [exOrdA] ⟨[("A", 1)], 10, 1⟩ "A" (by rfl)

/-- Claim C2: every operation that mutates shared order or inventory state
(Inventory.add_order, Inventory.remove_order, OrderManager.accept_order,
pickup_order, deliver_order, cancel_order) leaves that state completely
unchanged whenever it returns its sentinel failure value (false or none):
the order table, the inventory (collection, id index and current_weight)
and the manager (table, queue, completed and expired lists) are returned
exactly as given on every failure path. -/
theorem c2_no_mutation_on_failure :
    (∀ (tbl : List Order) (inv : Inventory) (oid : String),
        (Inventory.add_order tbl inv oid).2.2 = false →
        (Inventory.add_order tbl inv oid).1 = tbl ∧
        (Inventory.add_order tbl inv oid).2.1 = inv) ∧
    (∀ (inv : Inventory) (oid : String),
        (inv.remove_order oid).2 = false → (inv.remove_order oid).1 = inv) ∧
    (∀ (om : OrderManager) (oid : String),
        (om.accept_order oid).2 = none → (om.accept_order oid).1 = om) ∧
    (∀ (om : OrderManager) (oid : String) (now : Rat),
        (om.pickup_order oid now).2 = false →
        (om.pickup_order oid now).1 = om) ∧
    (∀ (om : OrderManager) (oid : String) (now : Rat),
        (om.deliver_order oid now).2 = none →
        (om.deliver_order oid now).1 = om) ∧
    (∀ (om : OrderManager) (oid : String),
        (om.cancel_order oid).2 = false → (om.cancel_order oid).1 = om) := by
  refine ⟨?_, ?_, ?_, ?_, ?_, ?_⟩
  · intro tbl inv oid h
    unfold Inventory.add_order at h ⊢
    cases hfind : lookupOrder tbl oid <;> simp only [hfind] at h ⊢ <;>
      first
      | exact ⟨rfl, rfl⟩
      | (split_ifs at h ⊢ <;> simp_all)
      | simp_all
  · intro inv oid h
    unfold Inventory.remove_order at h ⊢
    cases hfind : inv.held.find? (fun q => q.1 == oid) <;>
        simp only [hfind] at h ⊢ <;>
      simp_all
  · intro om oid h
    unfold OrderManager.accept_order at h ⊢
    cases hfind : lookupOrder om.all_orders oid <;> simp only [hfind] at h ⊢ <;>
      first
      | (split_ifs at h ⊢ <;> simp_all)
      | simp_all
  · intro om oid now h
    unfold OrderManager.pickup_order at h ⊢
    cases hfind : lookupOrder om.all_orders oid <;> simp only [hfind] at h ⊢ <;>
      first
      | (split_ifs at h ⊢ <;> simp_all)
      | simp_all
  · intro om oid now h
    unfold OrderManager.deliver_order at h ⊢
    cases hfind : lookupOrder om.all_orders oid <;> simp only [hfind] at h ⊢ <;>
      first
      | (split_ifs at h ⊢ <;> simp_all)
      | simp_all
  · intro om oid h
    unfold OrderManager.cancel_order at h ⊢
    cases hfind : lookupOrder om.all_orders oid <;> simp only [hfind] at h ⊢ <;>
      first
      | (split_ifs at h ⊢ <;> simp_all)
      | simp_all

/-- Witness for C2: each operation failing on a concrete state (unknown id
on an empty inventory/table) is shown to return its input unchanged. -/
theorem c2_no_mutation_on_failure_witness :
    (Inventory.add_order [] ⟨[], 10, 0⟩ "X").1 = [] ∧
    ((⟨[], 10, 0⟩ : Inventory).remove_order "X").1 = ⟨[], 10, 0⟩ ∧
    ((⟨[], PriorityQueue.empty, [], []⟩ : OrderManager).accept_order "X").1 =
      ⟨[], PriorityQueue.empty, [], []⟩ ∧
    ((⟨[], PriorityQueue.empty, [], []⟩ : OrderManager).pickup_order "X" 0).1 =
      ⟨[], PriorityQueue.empty, [], []⟩ ∧
    ((⟨[], PriorityQueue.empty, [], []⟩ : OrderManager).deliver_order "X" 0).1 =
      ⟨[], PriorityQueue.empty, [], []⟩ ∧
    ((⟨[], PriorityQueue.empty, [], []⟩ : OrderManager).cancel_order "X").1 =
      ⟨[], PriorityQueue.empty, [], []⟩ := by
  have h := c2_no_mutation_on_failure
  exact ⟨(h.1 [] ⟨[], 10, 0⟩ "X" rfl).1,
    h.2.1 ⟨[], 10, 0⟩ "X" rfl,
    h.2.2.1 ⟨[], PriorityQueue.empty, [], []⟩ "X" rfl,
    h.2.2.2.1 ⟨[], PriorityQueue.empty, [], []⟩ "X" 0 rfl,
    h.2.2.2.2.1 ⟨[], PriorityQueue.empty, [], []⟩ "X" 0 rfl,
    h.2.2.2.2.2 ⟨[], PriorityQueue.empty, [], []⟩ "X" rfl⟩

/-- Counterexample for C1 as stated: from a freshly loaded session with two
AVAILABLE orders, the operation sequence [Inventory.add_order A,
Inventory.add_order B] yields two orders in the ACCEPTED state at once, so
the at-most-one-active property does not hold at every observation point
reachable by sequences of the listed operations. -/
theorem c1_counterexample :
    ¬ (activeCount
        (runOps [GOp.inv_add "A", GOp.inv_add "B"] exG0).order_manager.all_orders
        ≤ 1) := by
  with_unfolding_all decide

/-- Claim C1 (amended): the at-most-one-active rule is enforced by
accept_order alone — accept_order returns none whenever any other order in
the system is ACCEPTED or PICKED_UP.  (Inventory.add_order performs no such
check, so the system-wide invariant fails over arbitrary sequences that
call it directly, per the counterexample.) -/
theorem c1_accept_order_gate (om : OrderManager) (oid : String) (o : Order)
    (ho : o ∈ om.all_orders) (hother : o.id ≠ oid)
    (hact : o.state = OrderState.accepted ∨ o.state = OrderState.picked_up) :
    (om.accept_order oid).2 = none := by
  have hex : ∃ x ∈ om.all_orders,
      x.state = OrderState.accepted ∨ x.state = OrderState.picked_up :=
    ⟨o, ho, hact⟩
  unfold OrderManager.accept_order
  by_cases hmem : memOrder om.all_orders oid
  · simp [hmem, hex]
  · simp [hmem]

/-- Witness for C1: a concrete session in which order B is ACCEPTED; the
gate refuses to accept order A. -/
theorem c1_accept_order_gate_witness :
    ((⟨[exOrdA, { exOrdB with state := OrderState.accepted }],
        PriorityQueue.empty, [], []⟩ : OrderManager).accept_order "A").2 =
      none :=
  c1_accept_order_gate _ "A" { exOrdB with state := OrderState.accepted }
    (by simp) (by decide) (Or.inl rfl)

/-! ## Lemmas: table lookups through id-preserving updates -/

lemma lookupOrder_map {tbl : List Order} {oid : String} {f : Order → Order}
    (hf : ∀ o, (f o).id = o.id) :
    lookupOrder (tbl.map f) oid = (lookupOrder tbl oid).map f := by
  induction tbl with
  | nil => rfl
  | cons x xs ih =>
    unfold lookupOrder at ih ⊢
    simp only [List.map_cons, List.find?_cons, hf x]
    by_cases hx : (x.id == oid) = true
    · simp [hx]
    · simp only [Bool.eq_false_iff.mpr hx]
      exact ih

lemma lookupOrder_some_id {tbl : List Order} {oid : String} {o : Order}
    (h : lookupOrder tbl oid = some o) : o.id = oid := by
  have h2 := List.find?_some h
  simpa using h2

lemma lookup_map_guard_eq {tbl : List Order} {oid2 : String} {o : Order}
    (ho : lookupOrder tbl oid2 = some o) (g : Order → Order)
    (hg : ∀ q, (g q).id = q.id) (hgo : g o = o) :
    lookupOrder (tbl.map g) oid2 = some o := by
  rw [lookupOrder_map hg, ho]
  simp [hgo]

/-- Counterexample for C4 as stated: Inventory.add_order on an order that is
already DELIVERED (a terminal state) moves it to ACCEPTED. -/
theorem c4_counterexample :
    ((lookupOrder exGDelivered.order_manager.all_orders "A").map Order.state =
      some OrderState.delivered) ∧
    ((lookupOrder
        (runOps [GOp.inv_add "A"] exGDelivered).order_manager.all_orders
        "A").map Order.state = some OrderState.accepted) := by
  with_unfolding_all decide

/-- Claim C4 (amended): the four lifecycle operations of the order manager
(pickup_order, deliver_order, cancel_order, update_expired_orders) never
move an order out of DELIVERED, CANCELLED or EXPIRED; Inventory.add_order
and undo_last_action are not covered (add_order re-marks any added order
ACCEPTED, per the counterexample, and undo restores snapshot states
unconditionally). -/
theorem c4_manager_ops_preserve_terminal (om : OrderManager)
    (oid oid2 : String) (now : Rat) (o : Order)
    (ho : lookupOrder om.all_orders oid2 = some o)
    (ht : o.state.isTerminal = true) :
    lookupOrder (om.pickup_order oid now).1.all_orders oid2 = some o ∧
    lookupOrder (om.deliver_order oid now).1.all_orders oid2 = some o ∧
    lookupOrder (om.cancel_order oid).1.all_orders oid2 = some o ∧
    lookupOrder (om.update_expired_orders now).1.all_orders oid2 = some o := by
  have hoid2 : o.id = oid2 := lookupOrder_some_id ho
  refine ⟨?_, ?_, ?_, ?_⟩
  · cases hf : lookupOrder om.all_orders oid with
    | none => simpa [OrderManager.pickup_order, hf] using ho
    | some o1 =>
      by_cases hacc : o1.state = OrderState.accepted
      · simp only [OrderManager.pickup_order, hf, hacc, if_true]
        refine lookup_map_guard_eq ho _ (by intro q; split <;> rfl) ?_
        by_cases hid : (o.id == oid) = true
        · have heq : oid2 = oid := by rw [← hoid2]; exact eq_of_beq hid
          rw [heq] at ho
          rw [ho] at hf
          cases hf
          rw [hacc] at ht
          simp [OrderState.isTerminal] at ht
        · simp [hid]
      · simpa [OrderManager.pickup_order, hf, hacc] using ho
  · cases hf : lookupOrder om.all_orders oid with
    | none => simpa [OrderManager.deliver_order, hf] using ho
    | some o1 =>
      by_cases hact : o1.state = OrderState.picked_up ∨
          o1.state = OrderState.accepted
      · simp only [OrderManager.deliver_order, hf, hact, if_true]
        refine lookup_map_guard_eq ho _ (by intro q; split <;> rfl) ?_
        by_cases hid : (o.id == oid) = true
        · have heq : oid2 = oid := by rw [← hoid2]; exact eq_of_beq hid
          rw [heq] at ho
          rw [ho] at hf
          cases hf
          rcases hact with h1 | h1 <;> rw [h1] at ht <;>
            simp [OrderState.isTerminal] at ht
        · simp [hid]
      · simpa [OrderManager.deliver_order, hf, hact] using ho
  · cases hf : lookupOrder om.all_orders oid with
    | none => simpa [OrderManager.cancel_order, hf] using ho
    | some o1 =>
      by_cases hact : o1.state = OrderState.accepted ∨
          o1.state = OrderState.picked_up
      · simp only [OrderManager.cancel_order, hf, hact, if_true]
        unfold setOrderState
        refine lookup_map_guard_eq ho _ (by intro q; split <;> rfl) ?_
        by_cases hid : (o.id == oid) = true
        · have heq : oid2 = oid := by rw [← hoid2]; exact eq_of_beq hid
          rw [heq] at ho
          rw [ho] at hf
          cases hf
          rcases hact with h1 | h1 <;> rw [h1] at ht <;>
            simp [OrderState.isTerminal] at ht
        · simp [hid]
      · simpa [OrderManager.cancel_order, hf, hact] using ho
  · simp only [OrderManager.update_expired_orders]
    refine lookup_map_guard_eq ho _ (by intro q; split <;> rfl) ?_
    have hexp : expiresNow o now = false := by
      cases hs : o.state <;> rw [hs] at ht <;>
        simp [OrderState.isTerminal] at ht <;>
        simp [expiresNow, Order.is_expired, hs]
    simp [hexp]

/-- Witness for C4 (amended): all four manager operations leave a concrete
DELIVERED order untouched. -/
theorem c4_manager_ops_preserve_terminal_witness :
    lookupOrder
      ((⟨[{ exOrdA with state := OrderState.delivered }], PriorityQueue.empty,
          [], []⟩ : OrderManager).pickup_order "A" 0).1.all_orders "A" =
        some { exOrdA with state := OrderState.delivered } ∧
    lookupOrder
      ((⟨[{ exOrdA with state := OrderState.delivered }], PriorityQueue.empty,
          [], []⟩ : OrderManager).deliver_order "A" 0).1.all_orders "A" =
        some { exOrdA with state := OrderState.delivered } ∧
    lookupOrder
      ((⟨[{ exOrdA with state := OrderState.delivered }], PriorityQueue.empty,
          [], []⟩ : OrderManager).cancel_order "A").1.all_orders "A" =
        some { exOrdA with state := OrderState.delivered } ∧
    lookupOrder
      ((⟨[{ exOrdA with state := OrderState.delivered }], PriorityQueue.empty,
          [], []⟩ : OrderManager).update_expired_orders 0).1.all_orders "A" =
        some { exOrdA with state := OrderState.delivered } :=
  c4_manager_ops_preserve_terminal
    ⟨[{ exOrdA with state := OrderState.delivered }], PriorityQueue.empty,
      [], []⟩ "A" "A" 0 { exOrdA with state := OrderState.delivered } rfl rfl

/-- Claim C10: undo_last_action restores only the fields captured in
GameSnapshot — for every game state, the player's reputation, on-time
streak and first-late-discount flag and the order manager's
completed_orders and expired_orders lists are identical before and after
undo_last_action (they are never rolled back by undo). -/
theorem c10_undo_restores_only_snapshot_fields (g : Game) :
    (g.undo_last_action.1.player.reputation = g.player.reputation) ∧
    (g.undo_last_action.1.player.on_time_streak = g.player.on_time_streak) ∧
    (g.undo_last_action.1.player.first_late_discount_used
        = g.player.first_late_discount_used) ∧
    (g.undo_last_action.1.order_manager.completed_orders
        = g.order_manager.completed_orders) ∧
    (g.undo_last_action.1.order_manager.expired_orders
        = g.order_manager.expired_orders) := by
  unfold Game.undo_last_action
  cases h : g.state_manager.history.getLast? with
  | none => exact ⟨rfl, rfl, rfl, rfl, rfl⟩
  | some snap => exact ⟨rfl, rfl, rfl, rfl, rfl⟩

/-- Claim C3 (evaluation at the failing input): from a game whose order A is
PICKED_UP and held in the inventory, save_state, one move, then
undo_last_action leaves A in state ACCEPTED instead of the saved PICKED_UP
state (the inventory rebuild goes through Inventory.add_order, which
re-marks the order), even though the player observables are restored. -/
theorem c3_undo_not_exact_eval :
    ((lookupOrder exGPicked.order_manager.all_orders "A").map Order.state =
      some OrderState.picked_up) ∧
    ((lookupOrder
        (runOps [GOp.save 5, GOp.move (1, 0) 1 1 1 0, GOp.undo]
          exGPicked).order_manager.all_orders "A").map Order.state =
      some OrderState.accepted) ∧
    ((runOps [GOp.save 5, GOp.move (1, 0) 1 1 1 0, GOp.undo]
        exGPicked).player.position = exGPicked.player.position) ∧
    ((runOps [GOp.save 5, GOp.move (1, 0) 1 1 1 0, GOp.undo]
        exGPicked).player.stamina = exGPicked.player.stamina) := by
  with_unfolding_all decide

/-- Claim C7 (evaluation at the failing input): at reputation 70 with an
on-time streak of 2, an early delivery makes the code apply the streak
bonus twice — reputation moves 70 → 79 (a change of +9, not the claimed
main delta +5 plus 2 = +7) while the function returns 7, which is not the
net delta actually applied. -/
theorem c7_streak_bonus_double_applied_eval :
    ((exPlayer.register_delivery_outcome 0 true).1.reputation = 79) ∧
    ((exPlayer.register_delivery_outcome 0 true).2 = 7) ∧
    (exPlayer.reputation = 70) ∧ (exPlayer.on_time_streak = 2) ∧
    ((79 : Int) - 70 ≠ 7) := by
  with_unfolding_all decide

/-- Claim C8: for a late delivery (delay > 0), the penalty is −2 for delay
≤ 30 s, −5 for 30 < delay ≤ 120 s and −10 beyond; when reputation ≥ 85 and
the one-shot discount is unconsumed the penalty is halved toward zero with
integer truncation and the discount is consumed permanently (so later late
deliveries get the full penalty, per the first conjunct with the flag set);
every late delivery resets the on-time streak to 0. -/
theorem c8_late_delivery_penalties (p : Player) (d : Rat) (hd : 0 < d) :
    (¬ (85 ≤ p.reputation ∧ p.first_late_discount_used = false) →
      (p.register_delivery_outcome d false).2 =
        (if d ≤ 30 then -2 else if d ≤ 120 then -5 else -10) ∧
      (p.register_delivery_outcome d false).1.first_late_discount_used =
        p.first_late_discount_used) ∧
    (85 ≤ p.reputation → p.first_late_discount_used = false →
      (p.register_delivery_outcome d false).2 =
        Int.tdiv (if d ≤ 30 then -2 else if d ≤ 120 then -5 else -10) 2 ∧
      (p.register_delivery_outcome d false).1.first_late_discount_used =
        true) ∧
    (p.register_delivery_outcome d false).1.on_time_streak = 0 := by
  have hne : ¬ d ≤ 0 := not_le.mpr hd
  refine ⟨?_, ?_, ?_⟩
  · intro hnd
    unfold Player.register_delivery_outcome
    simp [hne, hnd, Player.apply_reputation_change]
  · intro hrep hflag
    have hdisc : 85 ≤ p.reputation ∧ p.first_late_discount_used = false :=
      ⟨hrep, hflag⟩
    unfold Player.register_delivery_outcome
    simp [hne, hdisc, Player.apply_reputation_change]
  · unfold Player.register_delivery_outcome
    by_cases hdisc : 85 ≤ p.reputation ∧ p.first_late_discount_used = false <;>
      simp [hne, hdisc, Player.apply_reputation_change]

/-- Witness for C8 at the spec's example: reputation 90, discount unused,
delay 10 s gives delta −1 (half of −2 truncated toward zero), consumes the
discount and resets the streak. -/
theorem c8_late_delivery_penalties_witness :
    (({ exPlayer with reputation := 90 }.register_delivery_outcome
        10 false).2 = Int.tdiv (if (10 : Rat) ≤ 30 then -2
          else if (10 : Rat) ≤ 120 then -5 else -10) 2 ∧
      ({ exPlayer with reputation := 90 }.register_delivery_outcome
        10 false).1.first_late_discount_used = true) ∧
    ({ exPlayer with reputation := 90 }.register_delivery_outcome
        10 false).1.on_time_streak = 0 := by
  have h := c8_late_delivery_penalties { exPlayer with reputation := 90 } 10
    (by norm_num)
  exact ⟨h.2.1 (by norm_num [exPlayer]) rfl, h.2.2⟩

/-! ## Lemmas: earnings preservation of the player operations -/

lemma move_to_earnings (p : Player) (pos : Int × Int)
    (a b c dd : Rat) :
    ((p.move_to pos a b c dd).1).total_earnings = p.total_earnings := by
  unfold Player.move_to
  split_ifs
  · rfl
  · simp only [Player.consume_stamina, Player.update_state]
    split_ifs <;> rfl

lemma register_delivery_outcome_earnings (p : Player) (d : Rat) (e : Bool) :
    ((p.register_delivery_outcome d e).1).total_earnings =
      p.total_earnings := by
  simp only [Player.register_delivery_outcome, Player.apply_reputation_change]
  split_ifs <;> simp [apply_ite Player.total_earnings]

lemma apply_reputation_change_earnings (p : Player) (delta : Int) :
    ((p.apply_reputation_change delta).1).total_earnings =
      p.total_earnings := rfl

lemma pyRound_nonneg {x : Rat} (hx : 0 ≤ x) : 0 ≤ pyRound x := by
  unfold pyRound
  have h0 : (0 : Int) ≤ ⌊x⌋ := Int.floor_nonneg.mpr hx
  dsimp only
  split_ifs <;> omega

lemma get_pay_multiplier_nonneg (p : Player) : 0 ≤ p.get_pay_multiplier := by
  unfold Player.get_pay_multiplier
  split_ifs <;> norm_num

/-- Counterexample for C9 as stated: total_earnings is not monotonic over
every operation sequence — save_state, a delivery (earnings 0 → 100), then
undo_last_action restores the snapshot's earlier earnings, dropping them
back to 0. -/
theorem c9_counterexample :
    ((runOps [GOp.save 5, GOp.deliver "A" 100]
        exGAccepted).player.total_earnings = 100) ∧
    ((runOps [GOp.save 5, GOp.deliver "A" 100, GOp.undo]
        exGAccepted).player.total_earnings = 0) ∧
    ¬ ((100 : Int) ≤ 0) := by
  with_unfolding_all decide

/-- Claim C9 (amended): total_earnings is non-decreasing under every system
operation except undo_last_action (assuming the nonnegative payouts of the
data model), and among those operations it is modified only by the delivery
payout; undo_last_action restores the snapshot's earlier earnings and can
decrease it, per the counterexample. -/
theorem c9_earnings_monotone_except_undo (g : Game) (op : GOp)
    (hop : op ≠ GOp.undo)
    (hpay : ∀ o ∈ g.order_manager.all_orders, 0 ≤ o.payout) :
    g.player.total_earnings ≤ (op.apply g).player.total_earnings ∧
    ((∀ (oid : String) (now : Rat), op ≠ GOp.deliver oid now) →
      (op.apply g).player.total_earnings = g.player.total_earnings) := by
  cases op with
  | undo => exact absurd rfl hop
  | inv_add oid => exact ⟨le_refl _, fun _ => rfl⟩
  | inv_remove oid => exact ⟨le_refl _, fun _ => rfl⟩
  | accept oid => exact ⟨le_refl _, fun _ => rfl⟩
  | pickup oid now => exact ⟨le_refl _, fun _ => rfl⟩
  | cancel oid =>
    have heq : ((GOp.cancel oid).apply g).player.total_earnings =
        g.player.total_earnings := by
      simp only [GOp.apply, Game.cancel_flow]
      split_ifs <;> rfl
    exact ⟨le_of_eq heq.symm, fun _ => heq⟩
  | update_expired now => exact ⟨le_refl _, fun _ => rfl⟩
  | save ts => exact ⟨le_refl _, fun _ => rfl⟩
  | move pos a b c dd =>
    have heq : ((GOp.move pos a b c dd).apply g).player.total_earnings =
        g.player.total_earnings := by
      simp only [GOp.apply]
      exact move_to_earnings g.player pos a b c dd
    exact ⟨le_of_eq heq.symm, fun _ => heq⟩
  | deliver oid now =>
    refine ⟨?_, fun hnot => absurd rfl (hnot oid now)⟩
    simp only [GOp.apply, Game.deliver_flow]
    cases hr : (g.order_manager.deliver_order oid now).2 with
    | none => exact le_refl _
    | some r =>
      cases hf : lookupOrder g.order_manager.all_orders oid with
      | none => exact le_refl _
      | some o =>
        have homem : o ∈ g.order_manager.all_orders :=
          List.mem_of_find?_eq_some hf
        have hpo : (0 : Rat) ≤ (o.payout : Rat) := by
          exact_mod_cast hpay o homem
        simp only [Player.add_earnings, register_delivery_outcome_earnings]
        have hpr : 0 ≤ pyRound ((o.payout : Rat) *
            ((g.player.register_delivery_outcome (now - o.deadline)
              (decide ((3600 : Rat) * (1/5) ≤ o.deadline - now))).1
                ).get_pay_multiplier) :=
          pyRound_nonneg (mul_nonneg hpo (get_pay_multiplier_nonneg _))
        omega

/-- Witness for C9 (amended): a cancellation on the fresh two-order session
leaves total_earnings unchanged (and hence non-decreasing). -/
theorem c9_earnings_monotone_except_undo_witness :
    exG0.player.total_earnings ≤
      ((GOp.cancel "A").apply exG0).player.total_earnings ∧
    ((GOp.cancel "A").apply exG0).player.total_earnings =
      exG0.player.total_earnings := by
  have h := c9_earnings_monotone_except_undo exG0 (GOp.cancel "A")
    (by intro hcon; cases hcon)
    (by
      intro o ho
      fin_cases ho <;> norm_num [exOrdA, exOrdB])
  exact ⟨h.1, h.2 (by intro oid now hcon; cases hcon)⟩

end CQF
